import Mathlib

/-!
Verification of the pforge runtime core against its specification.

Each definition below is a shallow embedding of a function from the
repository sources (pforge-runtime and pforge-config crates); the file
name of the embedded source item is given in the doc comment.  Machine
integers are modelled as `Nat`, byte buffers as `List Nat`, f64
arithmetic (only used by the retry backoff) as `ℚ` with explicit
truncation where the source casts to an integer type, and fallible
operations as `Except`.
-/

namespace PForge

/-- Error taxonomy, from `crates/pforge-runtime/src/error.rs` (`enum Error`).
The payload of the `Serialization`, `Io` variants is reduced to the
display message of the wrapped cause. -/
inductive Error where
  | toolNotFound : String → Error
  | handler : String → Error
  | serialization : String → Error
  | io : String → Error
  | http : String → Error
  | timeout : Error
deriving DecidableEq, Repr

/-- Display form of an error, from the `thiserror` derive in `error.rs`. -/
def Error.toMessage : Error → String
  | .toolNotFound s => "Tool not found: " ++ s
  | .handler s => "Handler error: " ++ s
  | .serialization s => "Serialization error: " ++ s
  | .io s => "IO error: " ++ s
  | .http s => "HTTP error: " ++ s
  | .timeout => "Timeout error"

/-- Byte buffers (`Vec<u8>` / `&[u8]`). -/
abbrev Bytes := List Nat

/-- A type-erased registry entry: bytes-in / bytes-out dispatch closure,
from `trait HandlerEntry` in `crates/pforge-runtime/src/registry.rs`. -/
abbrev HandlerEntry := Bytes → Except Error Bytes

/-- `HandlerEntryImpl::<H>::dispatch` from `registry.rs` lines 90-101:
deserialize the payload to the typed input, run the handler, serialize
the typed output.  `decode` and `encode` stand for the serde codec of
the handler's associated `Input` / `Output` types. -/
def entryDispatch {I O : Type} (decode : Bytes → Except Error I)
    (handle : I → Except Error O) (encode : O → Except Error Bytes) :
    HandlerEntry := fun params =>
  match decode params with
  | .error e => .error e
  | .ok input =>
    match handle input with
    | .error e => .error e
    | .ok output => encode output

/-- The handler registry (`HandlerRegistry`, `registry.rs`): a map from
tool name to type-erased entry.  The `FxHashMap` is modelled as an
association list where `register` prepends, matching the map's
last-writer-wins insert together with first-match lookup. -/
abbrev HandlerRegistry := List (String × HandlerEntry)

/-- `HandlerRegistry::new`. -/
def HandlerRegistry.new : HandlerRegistry := []

/-- `HandlerRegistry::register` (`registry.rs` lines 121-129). -/
def HandlerRegistry.register (reg : HandlerRegistry) (name : String)
    (entry : HandlerEntry) : HandlerRegistry :=
  (name, entry) :: reg

/-- `HandlerRegistry::dispatch` (`registry.rs` lines 137-143): look the
tool up; absent names fail with `ToolNotFound`, present ones run the
entry's dispatch closure. -/
def HandlerRegistry.dispatch (reg : HandlerRegistry) (tool : String)
    (params : Bytes) : Except Error Bytes :=
  match List.lookup tool reg with
  | some h => h params
  | none => .error (.toolNotFound tool)

/-- Claim C1: dispatching a name that is not registered (hence also on the
empty registry) fails with `ToolNotFound` carrying that name; and for a
registered handler, whenever the serde round-trip decodes the serialized
input back to the input and the handler succeeds, byte-level dispatch is
decode-then-handle-then-encode: `dispatch name (serialize i)` returns
exactly `serialize (handle i)`. -/
theorem C1_dispatch_registry {I O : Type}
    (reg : HandlerRegistry) (missing name : String) (params : Bytes)
    (decode : Bytes → Except Error I) (handle : I → Except Error O)
    (encode : O → Except Error Bytes)
    (i : I) (o : O) (inBytes outBytes : Bytes)
    (hmiss : List.lookup missing reg = none)
    (hdec : decode inBytes = .ok i)
    (hhandle : handle i = .ok o)
    (henc : encode o = .ok outBytes) :
    reg.dispatch missing params = .error (.toolNotFound missing)
    ∧ (reg.register name (entryDispatch decode handle encode)).dispatch
        name inBytes = .ok outBytes := by
  constructor
  · unfold HandlerRegistry.dispatch
    rw [hmiss]
  · unfold HandlerRegistry.dispatch HandlerRegistry.register
    simp only [List.lookup, beq_self_eq_true]
    unfold entryDispatch
    rw [hdec]
    dsimp only
    rw [hhandle]
    dsimp only
    rw [henc]

/-- A concrete decoder used by the C1 witness: a number is serialized as
the singleton buffer holding it. -/
def natDecode : Bytes → Except Error Nat
  | [n] => .ok n
  | _ => .error (.serialization "bad payload")

/-- A concrete encoder used by the C1 witness. -/
def natEncode (n : Nat) : Except Error Bytes := .ok [n]

/-- A doubling handler used by the C1 witness. -/
def doubleHandle (n : Nat) : Except Error Nat := .ok (2 * n)

/-- Witness for C1: on the empty registry, dispatching "x" fails with
`ToolNotFound "x"`; registering a doubling handler under "double" and
dispatching the serialized input `21` yields the serialized output `42`. -/
theorem C1_dispatch_registry_witness :
    HandlerRegistry.dispatch HandlerRegistry.new "x" [0]
        = .error (.toolNotFound "x")
    ∧ (HandlerRegistry.new.register "double"
        (entryDispatch natDecode doubleHandle natEncode)).dispatch
        "double" [21] = .ok [42] :=
  C1_dispatch_registry HandlerRegistry.new "x" "double" [0]
    natDecode doubleHandle natEncode 21 42 [21] [42]
    rfl rfl rfl rfl

/-! ## Circuit breaker (`crates/pforge-runtime/src/recovery.rs`) -/

/-- `enum CircuitState` from `recovery.rs`.  `Open` is spelled `opened`
because `open` is a Lean keyword. -/
inductive CircuitState where
  | closed
  | opened
  | halfOpen
deriving DecidableEq, Repr

/-- `struct CircuitBreakerConfig` from `recovery.rs`.  Durations are in
abstract clock ticks. -/
structure CircuitBreakerConfig where
  failureThreshold : Nat
  timeout : Nat
  successThreshold : Nat
deriving DecidableEq, Repr

/-- The mutable fields of `struct CircuitBreaker`: current state, the two
atomic counters and the recorded opening instant. -/
structure CBState where
  state : CircuitState
  failureCount : Nat
  successCount : Nat
  lastFailureTime : Option Nat
deriving DecidableEq, Repr

/-- `CircuitBreaker::new`: Closed with zeroed counters and no timestamp. -/
def CBState.init : CBState := ⟨.closed, 0, 0, none⟩

/-- The admission check at the top of `CircuitBreaker::call`
(`recovery.rs` lines 66-80): when Open with a recorded failure instant and
the cooldown elapsed, transition to HalfOpen and reset the success
counter; when Open and not yet elapsed, reject (second component
`false`); otherwise admitCall unchanged.  `now - t` models
`last_failure.elapsed()` on a monotonic clock. -/
def admitCall (cfg : CircuitBreakerConfig) (s : CBState) (now : Nat) :
    CBState × Bool :=
  match s.state with
  | .opened =>
    match s.lastFailureTime with
    | some t =>
      if cfg.timeout ≤ now - t then
        ({ s with state := .halfOpen, successCount := 0 }, true)
      else (s, false)
    | none => (s, true)
  | _ => (s, true)

/-- `CircuitBreaker::on_success` (`recovery.rs` lines 95-113). -/
def onSuccess (cfg : CircuitBreakerConfig) (s : CBState) : CBState :=
  match s.state with
  | .halfOpen =>
    let successes := s.successCount + 1
    if cfg.successThreshold ≤ successes then
      { s with state := .closed, failureCount := 0, successCount := 0 }
    else { s with successCount := successes }
  | .closed => { s with failureCount := 0 }
  | .opened => s

/-- `CircuitBreaker::on_failure` (`recovery.rs` lines 115-135). -/
def onFailure (cfg : CircuitBreakerConfig) (s : CBState) (now : Nat) :
    CBState :=
  match s.state with
  | .closed =>
    let failures := s.failureCount + 1
    if cfg.failureThreshold ≤ failures then
      { s with state := .opened, failureCount := failures,
               lastFailureTime := some now }
    else { s with failureCount := failures }
  | .halfOpen =>
    { s with state := .opened, failureCount := cfg.failureThreshold,
             lastFailureTime := some now }
  | .opened => s

/-- `CircuitBreaker::call` (`recovery.rs` lines 61-93): run the admission
check; when rejected return the OPEN error without invoking the
operation; otherwise the operation's result (`opResult`) is fed to
`on_success` / `on_failure`. -/
def cbCall {α : Type} (cfg : CircuitBreakerConfig) (s : CBState)
    (now : Nat) (opResult : Except Error α) : CBState × Except Error α :=
  match admitCall cfg s now with
  | (s1, true) =>
    match opResult with
    | .ok v => (onSuccess cfg s1, .ok v)
    | .error e => (onFailure cfg s1 now, .error e)
  | (s1, false) => (s1, .error (.handler "Circuit breaker is OPEN"))

/-- Iterate `cbCall` over a sequence of (instant, operation result)
pairs, tracking only the breaker state. -/
def applyCalls (cfg : CircuitBreakerConfig) (s : CBState) :
    List (Nat × Except Error Unit) → CBState
  | [] => s
  | (now, res) :: rest => applyCalls cfg (cbCall cfg s now res).1 rest

/-- A sequence of failing calls at the given instants with the given
errors. -/
def failCalls (l : List (Nat × Error)) : List (Nat × Except Error Unit) :=
  l.map (fun p => (p.1, Except.error p.2))

/-- A sequence of succeeding calls at the given instants. -/
def okCalls (ts : List Nat) : List (Nat × Except Error Unit) :=
  ts.map (fun t => (t, Except.ok ()))

lemma cbCall_closed_fail_small (cfg : CircuitBreakerConfig)
    (fc sc : Nat) (lt : Option Nat) (now : Nat) (e : Error)
    (h : ¬ cfg.failureThreshold ≤ fc + 1) :
    cbCall cfg ⟨.closed, fc, sc, lt⟩ now
        (Except.error e : Except Error Unit)
      = (⟨.closed, fc + 1, sc, lt⟩, Except.error e) := by
  simp [cbCall, admitCall, onFailure, h]

lemma cbCall_closed_fail_thr (cfg : CircuitBreakerConfig)
    (fc sc : Nat) (lt : Option Nat) (now : Nat) (e : Error)
    (h : cfg.failureThreshold ≤ fc + 1) :
    cbCall cfg ⟨.closed, fc, sc, lt⟩ now
        (Except.error e : Except Error Unit)
      = (⟨.opened, fc + 1, sc, some now⟩, Except.error e) := by
  simp [cbCall, admitCall, onFailure, h]

lemma cbCall_halfOpen_ok_small (cfg : CircuitBreakerConfig)
    (fc sc : Nat) (lt : Option Nat) (now : Nat)
    (h : ¬ cfg.successThreshold ≤ sc + 1) :
    cbCall cfg ⟨.halfOpen, fc, sc, lt⟩ now
        (Except.ok () : Except Error Unit)
      = (⟨.halfOpen, fc, sc + 1, lt⟩, Except.ok ()) := by
  simp [cbCall, admitCall, onSuccess, h]

lemma cbCall_halfOpen_ok_thr (cfg : CircuitBreakerConfig)
    (fc sc : Nat) (lt : Option Nat) (now : Nat)
    (h : cfg.successThreshold ≤ sc + 1) :
    cbCall cfg ⟨.halfOpen, fc, sc, lt⟩ now
        (Except.ok () : Except Error Unit)
      = (⟨.closed, 0, 0, lt⟩, Except.ok ()) := by
  simp [cbCall, admitCall, onSuccess, h]

lemma cbCall_halfOpen_fail {α : Type} (cfg : CircuitBreakerConfig)
    (fc sc : Nat) (lt : Option Nat) (now : Nat) (e : Error) :
    cbCall (α := α) cfg ⟨.halfOpen, fc, sc, lt⟩ now (Except.error e)
      = (⟨.opened, cfg.failureThreshold, sc, some now⟩, Except.error e) := by
  simp [cbCall, admitCall, onFailure]

lemma cbCall_open_reject {α : Type} (cfg : CircuitBreakerConfig)
    (fc sc : Nat) (t now : Nat) (res : Except Error α)
    (h : now - t < cfg.timeout) :
    cbCall cfg ⟨.opened, fc, sc, some t⟩ now res
      = (⟨.opened, fc, sc, some t⟩,
         Except.error (.handler "Circuit breaker is OPEN")) := by
  simp [cbCall, admitCall, Nat.not_le.mpr h]

lemma admitCall_open_elapsed (cfg : CircuitBreakerConfig)
    (fc sc : Nat) (t now : Nat) (h : cfg.timeout ≤ now - t) :
    admitCall cfg ⟨.opened, fc, sc, some t⟩ now
      = (⟨.halfOpen, fc, 0, some t⟩, true) := by
  simp [admitCall, h]

lemma applyCalls_fail_closed (cfg : CircuitBreakerConfig) :
    ∀ (l : List (Nat × Error)) (fc sc : Nat) (lt : Option Nat),
    fc + l.length < cfg.failureThreshold →
    applyCalls cfg ⟨.closed, fc, sc, lt⟩ (failCalls l)
      = ⟨.closed, fc + l.length, sc, lt⟩ := by
  intro l
  induction l with
  | nil => intro fc sc lt _; simp [failCalls, applyCalls]
  | cons p rest ih =>
    intro fc sc lt hlt
    have h1 : fc + 1 + rest.length < cfg.failureThreshold := by
      simp only [List.length_cons] at hlt; omega
    have hth : ¬ cfg.failureThreshold ≤ fc + 1 := by omega
    simp only [failCalls, List.map_cons, applyCalls,
      cbCall_closed_fail_small cfg fc sc lt p.1 p.2 hth]
    rw [show rest.map
        (fun p => (p.1, (Except.error p.2 : Except Error Unit)))
      = failCalls rest from rfl]
    rw [ih (fc + 1) sc lt h1]
    simp only [List.length_cons]
    congr 1
    omega

lemma applyCalls_fail_opens (cfg : CircuitBreakerConfig) :
    ∀ (l : List (Nat × Error)) (tl : Nat) (el : Error)
      (fc sc : Nat) (lt : Option Nat),
    fc + l.length + 1 = cfg.failureThreshold →
    applyCalls cfg ⟨.closed, fc, sc, lt⟩ (failCalls (l ++ [(tl, el)]))
      = ⟨.opened, cfg.failureThreshold, sc, some tl⟩ := by
  intro l
  induction l with
  | nil =>
    intro tl el fc sc lt heq
    simp only [List.length_nil] at heq
    have hth : cfg.failureThreshold ≤ fc + 1 := by omega
    simp only [List.nil_append, failCalls, List.map_cons, List.map_nil,
      applyCalls, cbCall_closed_fail_thr cfg fc sc lt tl el hth]
    congr 1 <;> omega
  | cons p rest ih =>
    intro tl el fc sc lt heq
    have h1 : fc + 1 + rest.length + 1 = cfg.failureThreshold := by
      simp only [List.length_cons] at heq; omega
    have hth : ¬ cfg.failureThreshold ≤ fc + 1 := by omega
    simp only [List.cons_append, failCalls, List.map_cons, applyCalls,
      cbCall_closed_fail_small cfg fc sc lt p.1 p.2 hth]
    exact ih tl el (fc + 1) sc lt h1

lemma applyCalls_ok_halfOpen (cfg : CircuitBreakerConfig) :
    ∀ (ts : List Nat) (fc sc : Nat) (lt : Option Nat),
    sc + ts.length = cfg.successThreshold → ts ≠ [] →
    applyCalls cfg ⟨.halfOpen, fc, sc, lt⟩ (okCalls ts)
      = ⟨.closed, 0, 0, lt⟩ := by
  intro ts
  induction ts with
  | nil => intro _ _ _ _ hne; exact absurd rfl hne
  | cons t rest ih =>
    intro fc sc lt heq _
    cases rest with
    | nil =>
      simp only [List.length_cons, List.length_nil] at heq
      have hth : cfg.successThreshold ≤ sc + 1 := by omega
      simp [okCalls, applyCalls, cbCall_halfOpen_ok_thr cfg fc sc lt t hth]
    | cons t2 rest2 =>
      have h1 : sc + 1 + (t2 :: rest2).length = cfg.successThreshold := by
        simp only [List.length_cons] at heq ⊢; omega
      have hth : ¬ cfg.successThreshold ≤ sc + 1 := by
        simp only [List.length_cons] at h1; omega
      simp only [okCalls, List.map_cons, applyCalls,
        cbCall_halfOpen_ok_small cfg fc sc lt t hth]
      exact ih fc (sc + 1) lt h1 (by simp)

/-- Claim C2: the circuit breaker three-state step relation.  Starting
Closed, fewer than `failure_threshold` consecutive failures leave the
breaker Closed, and the `failure_threshold`-th consecutive failure moves
it to Open with the instant of that failure recorded; while Open with the
cooldown not yet elapsed every call is rejected with
`HandlerFailure "Circuit breaker is OPEN"` and the state is untouched;
the first call admitted once the cooldown has elapsed transitions the
breaker to HalfOpen with the success counter reset before the operation
runs; `success_threshold` successes in HalfOpen close the breaker with
both counters reset; a single failure in HalfOpen immediately reopens it
with a fresh timestamp. -/
theorem C2_circuit_breaker (cfg : CircuitBreakerConfig)
    (hk : 1 ≤ cfg.failureThreshold) (hst : 1 ≤ cfg.successThreshold)
    (l j : List (Nat × Error)) (tl : Nat) (el : Error)
    (hlen : l.length + 1 = cfg.failureThreshold)
    (hj : j.length < cfg.failureThreshold) :
    applyCalls cfg CBState.init (failCalls (l ++ [(tl, el)]))
      = ⟨.opened, cfg.failureThreshold, 0, some tl⟩
    ∧ (applyCalls cfg CBState.init (failCalls j)).state = .closed
    ∧ (∀ (s : CBState) (t now : Nat) (res : Except Error Unit),
        s.state = .opened → s.lastFailureTime = some t →
        now - t < cfg.timeout →
        cbCall cfg s now res
          = (s, .error (.handler "Circuit breaker is OPEN")))
    ∧ (∀ (s : CBState) (t now : Nat),
        s.state = .opened → s.lastFailureTime = some t →
        cfg.timeout ≤ now - t →
        admitCall cfg s now
          = ({ s with state := .halfOpen, successCount := 0 }, true))
    ∧ (∀ (s : CBState) (ts : List Nat),
        s.state = .halfOpen → s.successCount = 0 →
        ts.length = cfg.successThreshold → ts ≠ [] →
        applyCalls cfg s (okCalls ts)
          = ⟨.closed, 0, 0, s.lastFailureTime⟩)
    ∧ (∀ (s : CBState) (now : Nat) (e : Error),
        s.state = .halfOpen →
        cbCall (α := Unit) cfg s now (Except.error e)
          = (⟨.opened, cfg.failureThreshold, s.successCount, some now⟩,
             .error e)) := by
  refine ⟨?_, ?_, ?_, ?_, ?_, ?_⟩
  · have h := applyCalls_fail_opens cfg l tl el 0 0 none (by omega)
    simpa [CBState.init] using h
  · have h := applyCalls_fail_closed cfg j 0 0 none (by omega)
    simp only [CBState.init]
    rw [h]
  · rintro ⟨st, fc, sc, lt⟩ t now res hs ht hlt
    simp only at hs ht
    subst hs; subst ht
    exact cbCall_open_reject cfg fc sc t now res hlt
  · rintro ⟨st, fc, sc, lt⟩ t now hs ht hle
    simp only at hs ht
    subst hs; subst ht
    exact admitCall_open_elapsed cfg fc sc t now hle
  · rintro ⟨st, fc, sc, lt⟩ ts hs hsc hlen2 hne
    simp only at hs hsc
    subst hs; subst hsc
    exact applyCalls_ok_halfOpen cfg ts fc 0 lt (by omega) hne
  · rintro ⟨st, fc, sc, lt⟩ now e hs
    simp only at hs
    subst hs
    exact cbCall_halfOpen_fail cfg fc sc lt now e

/-- Witness for C2 at the concrete configuration
`failure_threshold = 2`, `timeout = 10`, `success_threshold = 2`: two
failures (at instants 5 and 7) open the breaker with timestamp 7, while
a single failure leaves it Closed. -/
theorem C2_circuit_breaker_witness :
    applyCalls ⟨2, 10, 2⟩ CBState.init
        (failCalls [(5, .handler "boom"), (7, .handler "boom")])
      = ⟨.opened, 2, 0, some 7⟩
    ∧ (applyCalls ⟨2, 10, 2⟩ CBState.init
        (failCalls [(5, .handler "boom")])).state = .closed := by
  have h := C2_circuit_breaker ⟨2, 10, 2⟩ (by decide) (by decide)
    [(5, .handler "boom")] [(5, .handler "boom")] 7 (.handler "boom")
    (by decide) (by decide)
  exact ⟨h.1, h.2.1⟩

/-! ## Retry engine (`crates/pforge-runtime/src/timeout.rs`) -/

/-- `struct RetryPolicy` (`timeout.rs` lines 42-54).  The two `Duration`
fields are in milliseconds; the f64 multiplier is modelled as an exact
rational. -/
structure RetryPolicy where
  max_attempts : Nat
  initial_backoff : Nat
  max_backoff : Nat
  backoff_multiplier : ℚ
  use_jitter : Bool

/-- `RetryPolicy::new` (`timeout.rs` lines 57-65): 100 ms initial
backoff, 30 s maximum, multiplier 2, jitter on. -/
def RetryPolicy.new (n : Nat) : RetryPolicy := ⟨n, 100, 30000, 2, true⟩

/-- Rust `str::contains`: does `pat` occur contiguously inside the
character list? -/
def substrCheck (pat : List Char) : List Char → Bool
  | [] => pat.isEmpty
  | c :: rest => pat.isPrefixOf (c :: rest) || substrCheck pat rest

/-- `msg.contains(pat)` on strings. -/
def strContains (s pat : String) : Bool := substrCheck pat.data s.data

/-- `RetryPolicy::is_retryable` (`timeout.rs` lines 98-111): only
`Handler` messages mentioning one of the four transient markers are
retryable. -/
def RetryPolicy.is_retryable (_p : RetryPolicy) (e : Error) : Bool :=
  match e with
  | .handler msg =>
    strContains msg "timeout" || strContains msg "timed out"
      || strContains msg "connection" || strContains msg "temporary"
  | _ => false

/-- The uncapped exponential term
`initial_backoff.as_millis() as f64 * multiplier.powi(attempt)` of
`RetryPolicy::backoff_duration`. -/
def RetryPolicy.backoff_base (p : RetryPolicy) (attempt : Nat) : ℚ :=
  (p.initial_backoff : ℚ) * p.backoff_multiplier ^ attempt

/-- The capped value `base_duration.min(max_backoff.as_millis() as f64)`. -/
def RetryPolicy.backoff_capped (p : RetryPolicy) (attempt : Nat) : ℚ :=
  min (p.backoff_base attempt) ((p.max_backoff : ℚ))

/-- `RetryPolicy::backoff_duration` (`timeout.rs` lines 84-96).  The f64
arithmetic is modelled as exact rational arithmetic; `r` models the
`rand::random::<f64>()` draw in `[0,1)`; the final
`Duration::from_millis(x as u64)` cast truncates, hence `Nat.floor`. -/
def RetryPolicy.backoff_duration (p : RetryPolicy) (attempt : Nat)
    (r : ℚ) : Nat :=
  if p.use_jitter then
    ⌊p.backoff_capped attempt + r * p.backoff_capped attempt * (1/10)⌋₊
  else
    ⌊p.backoff_capped attempt⌋₊

/-- Observable trace of one `retry_with_policy` run: the returned value,
the number of times the operation closure was invoked, and the backoff
sleeps performed, in order. -/
structure RetryTrace (α : Type) where
  result : Except Error α
  invocations : Nat
  sleeps : List Nat

/-- The loop of `retry_with_policy` (`timeout.rs` lines 175-198) together
with `handle_retry_result` (lines 159-172) and `apply_backoff_delay`
(lines 151-156).  `f i` is the outcome of the `i`-th invocation of the
operation, `r i` the jitter draw of the sleep after attempt `i`, and the
first argument is `max_attempts - attempt` (the remaining loop
iterations).  A sleep of `backoff_duration (attempt - 1)` happens after a
retryable failure only when another attempt is still allowed. -/
def retryGo {α : Type} (p : RetryPolicy) (f : Nat → Except Error α)
    (r : Nat → ℚ) : Nat → Nat → Option Error → RetryTrace α
  | 0, _, lastError =>
    ⟨.error (lastError.getD (.handler "All retry attempts failed")), 0, []⟩
  | remaining + 1, i, _ =>
    match f i with
    | .ok v => ⟨.ok v, 1, []⟩
    | .error e =>
      if p.is_retryable e then
        let tail := retryGo p f r remaining (i + 1) (some e)
        let sl := if 0 < remaining then [p.backoff_duration i (r i)] else []
        ⟨tail.result, tail.invocations + 1, sl ++ tail.sleeps⟩
      else ⟨.error e, 1, []⟩

/-- `retry_with_policy` (`timeout.rs` lines 175-198), entered with
`attempt = 0` and no recorded error. -/
def retry_with_policy {α : Type} (p : RetryPolicy)
    (f : Nat → Except Error α) (r : Nat → ℚ) : RetryTrace α :=
  retryGo p f r p.max_attempts 0 none

/-- The backoff sleeps of `n` consecutive retried attempts starting at
attempt index `i`. -/
def expSleeps (p : RetryPolicy) (r : Nat → ℚ) : Nat → Nat → List Nat
  | _, 0 => []
  | i, n + 1 => p.backoff_duration i (r i) :: expSleeps p r (i + 1) n

lemma expSleeps_eq (p : RetryPolicy) (r : Nat → ℚ) :
    ∀ (m i : Nat), expSleeps p r i m
      = (List.range m).map (fun j => p.backoff_duration (i + j) (r (i + j))) := by
  intro m
  induction m with
  | zero => intro i; simp [expSleeps]
  | succ k ih =>
    intro i
    have harg : ∀ j : Nat, i + 1 + j = i + (j + 1) := fun j => by omega
    simp [expSleeps, ih (i + 1), List.range_succ_eq_map, List.map_map,
      harg, Function.comp]

lemma retryGo_all_fail {α : Type} (p : RetryPolicy)
    (f : Nat → Except Error α) (r : Nat → ℚ) (e : Nat → Error) :
    ∀ (n i : Nat) (le' : Option Error), 1 ≤ n →
    (∀ m, m < n → f (i + m) = .error (e (i + m))) →
    (∀ m, m < n → p.is_retryable (e (i + m)) = true) →
    retryGo p f r n i le'
      = ⟨.error (e (i + n - 1)), n, expSleeps p r i (n - 1)⟩ := by
  intro n
  induction n with
  | zero => intro i le' h; omega
  | succ k ih =>
    intro i le' _ hfail hretry
    have hf0 : f i = .error (e i) := by simpa using hfail 0 (by omega)
    have hr0 : p.is_retryable (e i) = true := by
      simpa using hretry 0 (by omega)
    cases k with
    | zero => simp [retryGo, hf0, hr0, expSleeps]
    | succ k2 =>
      have hfail' : ∀ m, m < k2 + 1 → f (i + 1 + m) = .error (e (i + 1 + m)) := by
        intro m hm
        have h := hfail (m + 1) (by omega)
        have harg : i + (m + 1) = i + 1 + m := by omega
        rwa [harg] at h
      have hretry' : ∀ m, m < k2 + 1 →
          p.is_retryable (e (i + 1 + m)) = true := by
        intro m hm
        have h := hretry (m + 1) (by omega)
        have harg : i + (m + 1) = i + 1 + m := by omega
        rwa [harg] at h
      have htail := ih (i + 1) (some (e i)) (by omega) hfail' hretry'
      rw [retryGo, hf0]
      dsimp only
      simp only [hr0, eq_self_iff_true, if_true]
      rw [htail]
      have hidx : i + 1 + (k2 + 1) - 1 = i + (k2 + 1 + 1) - 1 := by omega
      simp [expSleeps, hidx]

lemma retryGo_stop_nonretryable {α : Type} (p : RetryPolicy)
    (f : Nat → Except Error α) (r : Nat → ℚ) (e : Nat → Error)
    (e' : Error) (he' : p.is_retryable e' = false) :
    ∀ (j n i : Nat) (le' : Option Error), j < n →
    (∀ m, m < j → f (i + m) = .error (e (i + m))) →
    (∀ m, m < j → p.is_retryable (e (i + m)) = true) →
    f (i + j) = .error e' →
    retryGo p f r n i le' = ⟨.error e', j + 1, expSleeps p r i j⟩ := by
  intro j
  induction j with
  | zero =>
    intro n i le' hlt _ _ hfj
    obtain ⟨n2, rfl⟩ : ∃ n2, n = n2 + 1 := ⟨n - 1, by omega⟩
    rw [retryGo]
    rw [show f i = .error e' from by simpa using hfj]
    dsimp only
    simp [he', expSleeps]
  | succ k ih =>
    intro n i le' hlt hfail hretry hfj
    obtain ⟨n2, rfl⟩ : ∃ n2, n = n2 + 1 := ⟨n - 1, by omega⟩
    have hf0 : f i = .error (e i) := by simpa using hfail 0 (by omega)
    have hr0 : p.is_retryable (e i) = true := by
      simpa using hretry 0 (by omega)
    have hfail' : ∀ m, m < k → f (i + 1 + m) = .error (e (i + 1 + m)) := by
      intro m hm
      have h := hfail (m + 1) (by omega)
      have harg : i + (m + 1) = i + 1 + m := by omega
      rwa [harg] at h
    have hretry' : ∀ m, m < k →
        p.is_retryable (e (i + 1 + m)) = true := by
      intro m hm
      have h := hretry (m + 1) (by omega)
      have harg : i + (m + 1) = i + 1 + m := by omega
      rwa [harg] at h
    have hfj' : f (i + 1 + k) = .error e' := by
      have harg : i + (k + 1) = i + 1 + k := by omega
      rwa [harg] at hfj
    have hn2 : 0 < n2 := by omega
    have htail := ih n2 (i + 1) (some (e i)) (by omega) hfail' hretry' hfj'
    rw [retryGo, hf0]
    dsimp only
    simp only [hr0, eq_self_iff_true, if_true]
    rw [htail]
    simp [expSleeps, hn2]

/-- Claim C3: for every retry policy, `retry_with_policy` invokes the
operation exactly `max_attempts` times when every attempt fails with a
retryable error, returning the last failure, with the backoff sleeps
performed strictly between attempts (none before the first invocation,
none after the final failing one: exactly `max_attempts - 1` sleeps, the
`m`-th being `backoff_duration m`); and when an attempt fails with a
non-retryable error after `j` retryable failures, that error is returned
immediately after `j + 1` invocations with only the `j` inter-attempt
sleeps performed. -/
theorem C3_retry_with_policy {α : Type} (p : RetryPolicy)
    (f g : Nat → Except Error α) (r : Nat → ℚ) (e : Nat → Error)
    (e' : Error) (j : Nat)
    (hmax : 1 ≤ p.max_attempts)
    (hfail : ∀ m, m < p.max_attempts → f m = .error (e m))
    (hretry : ∀ m, m < p.max_attempts → p.is_retryable (e m) = true)
    (hj : j < p.max_attempts)
    (hgfail : ∀ m, m < j → g m = .error (e m))
    (hgretry : ∀ m, m < j → p.is_retryable (e m) = true)
    (hgj : g j = .error e') (hne : p.is_retryable e' = false) :
    retry_with_policy p f r
      = ⟨.error (e (p.max_attempts - 1)), p.max_attempts,
         (List.range (p.max_attempts - 1)).map
           (fun m => p.backoff_duration m (r m))⟩
    ∧ retry_with_policy p g r
      = ⟨.error e', j + 1,
         (List.range j).map (fun m => p.backoff_duration m (r m))⟩ := by
  constructor
  · have h := retryGo_all_fail p f r e p.max_attempts 0 none hmax
      (fun m hm => by simpa using hfail m hm)
      (fun m hm => by simpa using hretry m hm)
    rw [retry_with_policy, h, expSleeps_eq]
    simp
  · have h := retryGo_stop_nonretryable p g r e e' hne j p.max_attempts 0
      none hj
      (fun m hm => by simpa using hgfail m hm)
      (fun m hm => by simpa using hgretry m hm)
      (by simpa using hgj)
    rw [retry_with_policy, h, expSleeps_eq]
    simp

/-- A uniformly failing retryable operation, for the C3 witness. -/
def alwaysTimeout (_i : Nat) : Except Error Nat :=
  .error (.handler "timeout error")

/-- An operation whose first attempt fails fatally, for the C3 witness. -/
def fatalOp (_i : Nat) : Except Error Nat :=
  .error (.handler "fatal error")

/-- Witness for C3: with `max_attempts = 3` and a handler failing with
"timeout error" on every attempt, the operation runs exactly 3 times,
the last failure is returned and exactly two inter-attempt sleeps
happen; a handler failing with the non-retryable "fatal error" is
invoked once, with no sleeps. -/
theorem C3_retry_with_policy_witness :
    retry_with_policy (RetryPolicy.new 3) alwaysTimeout (fun _ => 0)
      = ⟨.error (.handler "timeout error"), 3,
         [(RetryPolicy.new 3).backoff_duration 0 0,
          (RetryPolicy.new 3).backoff_duration 1 0]⟩
    ∧ retry_with_policy (RetryPolicy.new 3) fatalOp (fun _ => 0)
      = ⟨.error (.handler "fatal error"), 1, []⟩ := by
  have h := C3_retry_with_policy (RetryPolicy.new 3) alwaysTimeout fatalOp
    (fun _ => 0) (fun _ => .handler "timeout error")
    (.handler "fatal error") 0
    (by decide)
    (fun m _ => rfl)
    (fun m _ => rfl)
    (by decide)
    (fun m hm => absurd hm (by omega))
    (fun m hm => absurd hm (by omega))
    rfl
    (by decide)
  exact ⟨h.1, h.2⟩

/-- Counterexample policy for C4: initial backoff 1 ms, multiplier 1.5
(exactly representable in f64, so the rational model coincides with the
f64 computation at this input), jitter disabled. -/
def fractionalPolicy : RetryPolicy := ⟨3, 1, 30000, 3 / 2, false⟩

/-- Counterexample to C4 as stated: with jitter disabled,
`backoff_duration` does NOT always equal
`min(initial_backoff * multiplier^a, max_backoff)` exactly — at
initial 1 ms, multiplier 1.5, attempt 1, the exact min is 1.5 ms but the
`as u64` cast makes the code return a 1 ms duration. -/
theorem C4_backoff_duration_cex :
    fractionalPolicy.backoff_duration 1 0 = 1
    ∧ ((fractionalPolicy.backoff_duration 1 0 : ℚ)
        ≠ min ((fractionalPolicy.initial_backoff : ℚ)
                * fractionalPolicy.backoff_multiplier ^ 1)
              ((fractionalPolicy.max_backoff : ℚ))) := by
  have hmin : min ((fractionalPolicy.initial_backoff : ℚ)
      * fractionalPolicy.backoff_multiplier ^ 1)
      ((fractionalPolicy.max_backoff : ℚ)) = 3 / 2 := by
    rw [min_eq_left]
    · norm_num [fractionalPolicy]
    · norm_num [fractionalPolicy]
  have hdur : fractionalPolicy.backoff_duration 1 0 = 1 := by
    rw [RetryPolicy.backoff_duration]
    norm_num [fractionalPolicy]
    rw [show RetryPolicy.backoff_capped ⟨3, 1, 30000, 3 / 2, false⟩ 1
        = 3 / 2 from by
      rw [RetryPolicy.backoff_capped, RetryPolicy.backoff_base, min_eq_left]
      · norm_num
      · norm_num]
    rw [Nat.floor_eq_iff (by norm_num)]
    norm_num
  refine ⟨hdur, ?_⟩
  rw [hdur, hmin]
  norm_num

/-- Claim C4 (amended): with jitter disabled, `backoff_duration a` is
`min(initial_backoff * multiplier^a, max_backoff)` truncated to a whole
number of milliseconds, and it equals the exact min whenever the
uncapped product is a whole number of milliseconds; with jitter enabled
and `r` the uniform draw in `[0,1)`, the result is the truncation of
`capped + r * capped * 0.1`, so it lies between the truncated capped
value and `1.1 * capped`. -/
theorem C4_backoff_duration (p : RetryPolicy) (a n : Nat) (r : ℚ)
    (hr0 : 0 ≤ r) (hr1 : r < 1) (hmul : 0 ≤ p.backoff_multiplier) :
    (p.use_jitter = false →
      p.backoff_duration a r
        = ⌊min ((p.initial_backoff : ℚ) * p.backoff_multiplier ^ a)
              ((p.max_backoff : ℚ))⌋₊
      ∧ ((p.initial_backoff : ℚ) * p.backoff_multiplier ^ a = (n : ℚ) →
          p.backoff_duration a r = min n p.max_backoff))
    ∧ (p.use_jitter = true →
      ⌊p.backoff_capped a⌋₊ ≤ p.backoff_duration a r
      ∧ (p.backoff_duration a r : ℚ) ≤ p.backoff_capped a * (11 / 10)) := by
  have hcap0 : 0 ≤ p.backoff_capped a := by
    rw [RetryPolicy.backoff_capped]
    refine le_min ?_ ?_
    · exact mul_nonneg (by positivity) (pow_nonneg hmul a)
    · positivity
  constructor
  · intro hj
    constructor
    · rw [RetryPolicy.backoff_duration, hj]
      simp [RetryPolicy.backoff_capped, RetryPolicy.backoff_base]
    · intro hnat
      rw [RetryPolicy.backoff_duration, hj]
      simp only [Bool.false_eq_true, if_false]
      rw [RetryPolicy.backoff_capped, RetryPolicy.backoff_base, hnat,
        ← Nat.cast_min, Nat.floor_natCast]
  · intro hj
    have hbd : p.backoff_duration a r
        = ⌊p.backoff_capped a + r * p.backoff_capped a * (1 / 10)⌋₊ := by
      rw [RetryPolicy.backoff_duration, hj]
      simp
    constructor
    · rw [hbd]
      refine Nat.floor_le_floor ?_
      have : 0 ≤ r * p.backoff_capped a * (1 / 10) := by positivity
      linarith
    · rw [hbd]
      have hle : p.backoff_capped a + r * p.backoff_capped a * (1 / 10)
          ≤ p.backoff_capped a * (11 / 10) := by
        have h1 : r * p.backoff_capped a * (1 / 10)
            ≤ p.backoff_capped a * (1 / 10) := by
          have := mul_le_of_le_one_left hcap0 (le_of_lt hr1)
          nlinarith
        linarith
      calc ((⌊p.backoff_capped a + r * p.backoff_capped a * (1 / 10)⌋₊ : ℚ))
          ≤ p.backoff_capped a + r * p.backoff_capped a * (1 / 10) :=
            Nat.floor_le (by positivity)
        _ ≤ p.backoff_capped a * (11 / 10) := hle

/-- Witness for C4: at the default-style policy with multiplier 2,
initial 100 ms and maximum 30 s, jitter off, attempt 2 gives exactly
`min 400 30000 = 400` ms, and with jitter on and draw `r = 1/2` the
result stays between 400 and 440 ms. -/
theorem C4_backoff_duration_witness :
    ((⟨5, 100, 30000, 2, false⟩ : RetryPolicy).backoff_duration 2 (1 / 2)
      = min 400 30000)
    ∧ ⌊(⟨5, 100, 30000, 2, true⟩ : RetryPolicy).backoff_capped 2⌋₊
        ≤ (⟨5, 100, 30000, 2, true⟩ : RetryPolicy).backoff_duration 2 (1 / 2)
    ∧ ((⟨5, 100, 30000, 2, true⟩ : RetryPolicy).backoff_duration 2 (1 / 2) : ℚ)
        ≤ (⟨5, 100, 30000, 2, true⟩ : RetryPolicy).backoff_capped 2
            * (11 / 10) := by
  have h1 := C4_backoff_duration (⟨5, 100, 30000, 2, false⟩ : RetryPolicy)
    2 400 (1 / 2) (by norm_num) (by norm_num) (by norm_num)
  have h2 := C4_backoff_duration (⟨5, 100, 30000, 2, true⟩ : RetryPolicy)
    2 400 (1 / 2) (by norm_num) (by norm_num) (by norm_num)
  refine ⟨(h1.1 rfl).2 (by norm_num), (h2.2 rfl).1, (h2.2 rfl).2⟩

/-- Counterexample to C9 as stated: the `Deadline` failure
(`Error::Timeout`, produced by the subprocess caller when its per-tool
deadline expires, `cli.rs` line 98) is NOT classified as retryable: the
classifier only inspects `Handler` messages. -/
theorem C9_deadline_retryable_cex :
    (RetryPolicy.new 3).is_retryable Error.timeout = false := rfl

lemma substrCheck_append (pat : List Char) :
    ∀ (s t : List Char), substrCheck pat s = true →
    substrCheck pat (s ++ t) = true := by
  intro s
  induction s with
  | nil =>
    intro t h
    simp only [substrCheck, List.isEmpty_iff] at h
    subst h
    cases t with
    | nil => rfl
    | cons c rest => simp [substrCheck, List.isPrefixOf]
  | cons c rest ih =>
    intro t h
    simp only [substrCheck, Bool.or_eq_true] at h ⊢
    rcases h with h | h
    · left
      have hp : pat <+: c :: rest := List.isPrefixOf_iff_prefix.mp h
      exact List.isPrefixOf_iff_prefix.mpr (hp.trans (List.prefix_append _ _))
    · right
      exact ih t h

/-- Claim C9 (amended): the `Deadline` variant (`Error::Timeout`) is
classified as NON-retryable by `RetryPolicy::is_retryable`; only
`Handler` failures are inspected, a `Handler` message being retryable
exactly when it contains one of the four transient substrings — so the
deadline gate's `with_timeout` error message
`"Operation timed out after …"` (`timeout.rs` line 207) IS retryable,
while the subprocess caller's `Error::Timeout` is not. -/
theorem C9_deadline_retryability (p : RetryPolicy) (msg d : String) :
    p.is_retryable Error.timeout = false
    ∧ p.is_retryable (.handler ("Operation timed out after " ++ d)) = true
    ∧ (p.is_retryable (.handler msg)
        = (strContains msg "timeout" || strContains msg "timed out"
            || strContains msg "connection" || strContains msg "temporary"))
    ∧ p.is_retryable (.serialization msg) = false := by
  refine ⟨rfl, ?_, rfl, rfl⟩
  have h : strContains ("Operation timed out after " ++ d) "timed out"
      = true := by
    rw [strContains, String.data_append]
    exact substrCheck_append _ _ _ (by decide)
  rw [RetryPolicy.is_retryable]
  rw [h]
  simp

/-! ## JSON values and the middleware chain
(`crates/pforge-runtime/src/middleware.rs`) -/

/- `serde_json::Value` is modelled by the mutually inductive triple
below. -/
mutual
/-- `serde_json::Value`.  Numbers are modelled as integers (none of the
embedded code computes with numeric leaves); arrays and objects are
spelled as the mutually inductive `JsonArr` / `JsonObj` spines so that
structural recursion and induction over the tree are available. -/
inductive Json where
  | null : Json
  | bool : Bool → Json
  | num : Int → Json
  | str : String → Json
  | arr : JsonArr → Json
  | obj : JsonObj → Json
deriving Repr, DecidableEq
/-- The element spine of a JSON array (`Vec<Value>`). -/
inductive JsonArr where
  | nil : JsonArr
  | cons : Json → JsonArr → JsonArr
deriving Repr, DecidableEq
/-- The field spine of a JSON object (`Map<String, Value>`). -/
inductive JsonObj where
  | nil : JsonObj
  | cons : String → Json → JsonObj → JsonObj
deriving Repr, DecidableEq
end

/-- `trait Middleware` (`middleware.rs` lines 6-26): the three hooks.  A
middleware relying on a default hook is modelled with the default's
body (identity `before`/`after`, re-raising `on_error`). -/
structure Middleware where
  before : Json → Except Error Json
  after : Json → Json → Except Error Json
  onError : Json → Error → Except Error Json

/-- The before phase of `MiddlewareChain::execute` (`middleware.rs`
lines 51-54): insertion order, `?`-propagation on failure. -/
def runBefore : List Middleware → Json → Except Error Json
  | [], req => .ok req
  | m :: rest, req =>
    match m.before req with
    | .ok req2 => runBefore rest req2
    | .error e => .error e

/-- The after phase (`middleware.rs` lines 61-65): the caller passes the
middlewares already reversed; a failing after-hook `?`-propagates. -/
def runAfter : List Middleware → Json → Json → Except Error Json
  | [], _, resp => .ok resp
  | m :: rest, req, resp =>
    match m.after req resp with
    | .ok resp2 => runAfter rest req resp2
    | .error e => .error e

/-- The on-error cascade (`middleware.rs` lines 67-76): the caller passes
the middlewares already reversed; an `Ok` recovery returns immediately,
an `Err` replaces the current error for the next hook. -/
def runOnError : List Middleware → Json → Error → Except Error Json
  | [], _, e => .error e
  | m :: rest, req, e =>
    match m.onError req e with
    | .ok recovery => .ok recovery
    | .error e2 => runOnError rest req e2

/-- `MiddlewareChain::execute` (`middleware.rs` lines 46-78). -/
def MiddlewareChain.execute (mws : List Middleware) (request : Json)
    (handler : Json → Except Error Json) : Except Error Json :=
  match runBefore mws request with
  | .error e => .error e
  | .ok req =>
    match handler req with
    | .ok resp => runAfter mws.reverse req resp
    | .error e => runOnError mws.reverse req e

/-- A middleware whose after-hook fails and whose on-error hook would
recover, for the C5 counterexample. -/
def afterFailsMw : Middleware :=
  ⟨fun req => .ok req,
   fun _ _ => .error (.handler "after failed"),
   fun _ _ => .ok (.str "recovered")⟩

/-- Counterexample to C5 as stated: when an after-hook fails, the
on-error hooks do NOT run — the after-hook's error propagates directly
out of `execute` (the `?` on line 63 of `middleware.rs`), even though the
middleware's own on-error hook would have produced a recovery
response (as the middle conjunct shows), so the chain's result is the
error and not the recovery response the claim predicts. -/
theorem C5_middleware_on_error_cex :
    MiddlewareChain.execute [afterFailsMw] (.obj .nil) (fun req => .ok req)
      = .error (.handler "after failed")
    ∧ runOnError [afterFailsMw] (.obj .nil) (.handler "after failed")
      = .ok (.str "recovered")
    ∧ (Except.error (.handler "after failed")
        ≠ (Except.ok (.str "recovered") : Except Error Json)) := by
  refine ⟨rfl, rfl, ?_⟩
  intro h
  exact Except.noConfusion h

/-- Claim C5 (amended): when the before phase succeeds with `req2` and
the wrapped operation fails with `e`, `execute` runs the on-error
cascade over the middlewares in reverse insertion order, where each hook
either produces a recovery response — which terminates propagation and
is the chain's successful result — or re-raises a possibly transformed
error that is passed to the next hook, the error surviving an empty
cascade; when instead the operation succeeds and an after-hook fails,
that failure propagates directly without running any on-error hook. -/
theorem C5_middleware_on_error (mws : List Middleware)
    (request req2 resp : Json) (handler : Json → Except Error Json)
    (e : Error) (hb : runBefore mws request = .ok req2) :
    (handler req2 = .error e →
      MiddlewareChain.execute mws request handler
        = runOnError mws.reverse req2 e)
    ∧ (handler req2 = .ok resp → runAfter mws.reverse req2 resp = .error e →
      MiddlewareChain.execute mws request handler = .error e)
    ∧ (∀ (m : Middleware) (rest : List Middleware) (err : Error) (v : Json),
        (m.onError req2 err = .ok v →
          runOnError (m :: rest) req2 err = .ok v)
        ∧ (∀ err2, m.onError req2 err = .error err2 →
          runOnError (m :: rest) req2 err = runOnError rest req2 err2))
    ∧ runOnError [] req2 e = .error e := by
  refine ⟨?_, ?_, ?_, rfl⟩
  · intro hh
    rw [MiddlewareChain.execute, hb]
    dsimp only
    rw [hh]
  · intro hh ha
    rw [MiddlewareChain.execute, hb]
    dsimp only
    rw [hh]
    dsimp only
    rw [ha]
  · intro m rest err v
    constructor
    · intro ho
      rw [runOnError, ho]
    · intro err2 ho
      rw [runOnError, ho]

/-- An error-transforming middleware for the C5 witness. -/
def transformErrMw : Middleware :=
  ⟨fun req => .ok req, fun _ resp => .ok resp,
   fun _ e => .error (.handler ("wrapped: " ++ e.toMessage))⟩

/-- A recovering middleware for the C5 witness. -/
def recoverMw : Middleware :=
  ⟨fun req => .ok req, fun _ resp => .ok resp,
   fun _ _ => .ok (.str "fixed")⟩

/-- Witness for C5: in the chain `[recoverMw, transformErrMw]` with a
failing operation, the on-error cascade runs in reverse insertion order —
`transformErrMw` re-raises a transformed error, then `recoverMw`
recovers — and the recovery is the chain's successful result. -/
theorem C5_middleware_on_error_witness :
    MiddlewareChain.execute [recoverMw, transformErrMw] (.obj .nil)
      (fun _ => .error (.handler "boom")) = .ok (.str "fixed") :=
  ((C5_middleware_on_error [recoverMw, transformErrMw] (.obj .nil) (.obj .nil)
    (.obj .nil) (fun _ => .error (.handler "boom")) (.handler "boom")
    rfl).1 rfl).trans rfl

/-! ## Pipeline variable interpolation
(`crates/pforge-runtime/src/handlers/pipeline.rs`) -/

/-- Rust `str::replace` on character lists: replace every non-overlapping
occurrence of `pat`, scanning left to right.  The fuel argument is the
length of the scanned list (each step consumes at least one character,
so `s.length` fuel always suffices); patterns here are never empty. -/
def replaceFuel (pat rep : List Char) : Nat → List Char → List Char
  | 0, s => s
  | _ + 1, [] => []
  | fuel + 1, c :: rest =>
    if pat.isPrefixOf (c :: rest) && !pat.isEmpty then
      rep ++ replaceFuel pat rep fuel ((c :: rest).drop pat.length)
    else c :: replaceFuel pat rep fuel rest

/-- `String::replace(pat, rep)`. -/
def replaceAll (s pat rep : String) : String :=
  String.mk (replaceFuel pat.data rep.data s.data.length s.data)

/-- The search pattern of `interpolate_variables` — the key wrapped in
double braces (the string escapes spell the two brace characters). -/
def varPattern (key : String) : String :=
  "\x7b\x7b" ++ key ++ "\x7d\x7d"

/-- The string-leaf case of `PipelineHandler::interpolate_variables`
(`pipeline.rs` lines 138-147): fold over the variable store; only
variables whose value is a JSON string (`value.as_str()`) are
substituted, all other values leave the string untouched. -/
def interpolateString (s : String) (vars : List (String × Json)) : String :=
  vars.foldl (fun result p =>
    match p.2 with
    | .str v => replaceAll result (varPattern p.1) v
    | _ => result) s

mutual
/-- `PipelineHandler::interpolate_variables` (`pipeline.rs`
lines 131-165): strings get hole substitution, objects and arrays are
rebuilt recursively, all other leaves are cloned unchanged. -/
def interpolate_variables (vars : List (String × Json)) : Json → Json
  | .null => .null
  | .bool b => .bool b
  | .num n => .num n
  | .str s => .str (interpolateString s vars)
  | .arr l => .arr (interpolateArr vars l)
  | .obj o => .obj (interpolateObj vars o)
/-- The array case of `interpolate_variables`. -/
def interpolateArr (vars : List (String × Json)) : JsonArr → JsonArr
  | .nil => .nil
  | .cons v rest =>
    .cons (interpolate_variables vars v) (interpolateArr vars rest)
/-- The object case of `interpolate_variables`: keys are kept, values
recurse. -/
def interpolateObj (vars : List (String × Json)) : JsonObj → JsonObj
  | .nil => .nil
  | .cons k v rest =>
    .cons k (interpolate_variables vars v) (interpolateObj vars rest)
end

mutual
theorem interpolate_nil_store (t : Json) :
    interpolate_variables [] t = t := by
  cases t with
  | null => rfl
  | bool b => rfl
  | num n => rfl
  | str s => rfl
  | arr l =>
    rw [show interpolate_variables [] (.arr l)
        = .arr (interpolateArr [] l) from rfl, interpolateArr_nil_store l]
  | obj o =>
    rw [show interpolate_variables [] (.obj o)
        = .obj (interpolateObj [] o) from rfl, interpolateObj_nil_store o]
theorem interpolateArr_nil_store (l : JsonArr) :
    interpolateArr [] l = l := by
  cases l with
  | nil => rfl
  | cons v rest =>
    rw [show interpolateArr [] (.cons v rest)
        = .cons (interpolate_variables [] v) (interpolateArr [] rest)
      from rfl, interpolate_nil_store v, interpolateArr_nil_store rest]
theorem interpolateObj_nil_store (o : JsonObj) :
    interpolateObj [] o = o := by
  cases o with
  | nil => rfl
  | cons k v rest =>
    rw [show interpolateObj [] (.cons k v rest)
        = .cons k (interpolate_variables [] v) (interpolateObj [] rest)
      from rfl, interpolate_nil_store v, interpolateObj_nil_store rest]
end

lemma interpolateString_nonstr :
    ∀ (vars : List (String × Json)) (s : String),
    (∀ p ∈ vars, ∀ w : String, p.2 ≠ Json.str w) →
    interpolateString s vars = s := by
  intro vars
  induction vars with
  | nil => intro s _; rfl
  | cons p rest ih =>
    intro s hns
    have hstep : (fun result (q : String × Json) =>
        match q.2 with
        | .str v => replaceAll result (varPattern q.1) v
        | _ => result) s p = s := by
      rcases hq : p.2 with _ | b | n | w | l | o
      all_goals simp only [hq]
      exact absurd hq (by
        have := hns p (List.mem_cons_self p rest) w
        simpa using this)
    have hrest : ∀ q ∈ rest, ∀ w : String, q.2 ≠ Json.str w :=
      fun q hq => hns q (List.mem_cons_of_mem p hq)
    calc interpolateString s (p :: rest)
        = interpolateString ((fun result (q : String × Json) =>
            match q.2 with
            | .str v => replaceAll result (varPattern q.1) v
            | _ => result) s p) rest := rfl
      _ = interpolateString s rest := by rw [hstep]
      _ = s := ih s hrest

mutual
theorem interpolate_nonstr_store (vars : List (String × Json)) (t : Json)
    (hns : ∀ p ∈ vars, ∀ w : String, p.2 ≠ Json.str w) :
    interpolate_variables vars t = t := by
  cases t with
  | null => rfl
  | bool b => rfl
  | num n => rfl
  | str s =>
    rw [show interpolate_variables vars (.str s)
        = .str (interpolateString s vars) from rfl,
      interpolateString_nonstr vars s hns]
  | arr l =>
    rw [show interpolate_variables vars (.arr l)
        = .arr (interpolateArr vars l) from rfl,
      interpolateArr_nonstr_store vars l hns]
  | obj o =>
    rw [show interpolate_variables vars (.obj o)
        = .obj (interpolateObj vars o) from rfl,
      interpolateObj_nonstr_store vars o hns]
theorem interpolateArr_nonstr_store (vars : List (String × Json))
    (l : JsonArr) (hns : ∀ p ∈ vars, ∀ w : String, p.2 ≠ Json.str w) :
    interpolateArr vars l = l := by
  cases l with
  | nil => rfl
  | cons v rest =>
    rw [show interpolateArr vars (.cons v rest)
        = .cons (interpolate_variables vars v) (interpolateArr vars rest)
      from rfl, interpolate_nonstr_store vars v hns,
      interpolateArr_nonstr_store vars rest hns]
theorem interpolateObj_nonstr_store (vars : List (String × Json))
    (o : JsonObj) (hns : ∀ p ∈ vars, ∀ w : String, p.2 ≠ Json.str w) :
    interpolateObj vars o = o := by
  cases o with
  | nil => rfl
  | cons k v rest =>
    rw [show interpolateObj vars (.cons k v rest)
        = .cons k (interpolate_variables vars v) (interpolateObj vars rest)
      from rfl, interpolate_nonstr_store vars v hns,
      interpolateObj_nonstr_store vars rest hns]
end

/-- Counterexample to C7 as stated: a hole naming a variable that IS
present in the store is left intact when the variable's value is not a
JSON string — the code substitutes only `value.as_str()` values, so with
store `x = 42` the template `"hi {{x}}"` is returned
unchanged rather than becoming `"hi 42"` (the string-form the claim
requires). -/
theorem C7_interpolation_cex :
    interpolate_variables [("x", Json.num 42)] (.str "hi \x7b\x7bx\x7d\x7d")
      = .str "hi \x7b\x7bx\x7d\x7d"
    ∧ interpolate_variables [("x", Json.num 42)] (.str "hi \x7b\x7bx\x7d\x7d")
      ≠ .str "hi 42" := by
  exact ⟨rfl, by decide⟩

/-- Claim C7 (amended): pipeline interpolation deep-copies the template;
a string leaf has each `{{name}}` hole replaced via
`str::replace` with the variable's value when that variable is present
in the store WITH A JSON-STRING VALUE; variables present with any
non-string value (and missing variables, in particular the empty store)
leave the template — holes included — intact; arrays and objects are
traversed recursively with keys and non-string leaves untouched. -/
theorem C7_interpolation (vars vars2 : List (String × Json))
    (k v s kf : String) (t t2 : Json) (l : JsonArr) (o : JsonObj)
    (n : Int) (b : Bool)
    (hns : ∀ p ∈ vars, ∀ w : String, p.2 ≠ Json.str w) :
    interpolate_variables [(k, .str v)] (.str s)
      = .str (replaceAll s (varPattern k) v)
    ∧ interpolate_variables vars t = t
    ∧ interpolate_variables [] t = t
    ∧ interpolate_variables vars2 (.arr l) = .arr (interpolateArr vars2 l)
    ∧ interpolateArr vars2 (.cons t2 l)
        = .cons (interpolate_variables vars2 t2) (interpolateArr vars2 l)
    ∧ interpolate_variables vars2 (.obj o) = .obj (interpolateObj vars2 o)
    ∧ interpolateObj vars2 (.cons kf t2 o)
        = .cons kf (interpolate_variables vars2 t2) (interpolateObj vars2 o)
    ∧ interpolate_variables vars2 (.num n) = .num n
    ∧ interpolate_variables vars2 (.bool b) = .bool b
    ∧ interpolate_variables vars2 .null = .null :=
  ⟨rfl, interpolate_nonstr_store vars t hns, interpolate_nil_store t,
   rfl, rfl, rfl, rfl, rfl, rfl, rfl⟩

/-- Witness for C7: the P11 instance — template `"hi {{x}}"`
with store `x = "world"` (a string value) becomes `"hi world"`; with the
store `x = 42` the template is unchanged. -/
theorem C7_interpolation_witness :
    interpolate_variables [("x", Json.str "world")]
        (.str "hi \x7b\x7bx\x7d\x7d") = .str "hi world"
    ∧ interpolate_variables [("x", Json.num 42)]
        (.str "hi \x7b\x7bx\x7d\x7d") = .str "hi \x7b\x7bx\x7d\x7d" := by
  have h := C7_interpolation [("x", Json.num 42)] [] "x" "world"
    "hi \x7b\x7bx\x7d\x7d" "k" (.str "hi \x7b\x7bx\x7d\x7d") .null .nil .nil 0
    false (by intro p hp w; fin_cases hp <;> simp)
  exact ⟨h.1.trans (by decide), h.2.1⟩

/-! ## Pipeline runner (`crates/pforge-runtime/src/handlers/pipeline.rs`) -/

/-- `enum ErrorPolicy` (`pipeline.rs` lines 19-23); `Continue` is spelled
`cont` because `continue` is a Lean keyword. -/
inductive ErrorPolicy where
  | failFast
  | cont
deriving DecidableEq, Repr

/-- `struct PipelineStep` (`pipeline.rs` lines 10-17). -/
structure PipelineStep where
  tool : String
  input : Option Json
  output_var : Option String
  condition : Option String
  error_policy : ErrorPolicy

/-- `struct StepResult` (`pipeline.rs` lines 37-43). -/
structure StepResult where
  tool : String
  success : Bool
  output : Option Json
  error : Option String
deriving DecidableEq, Repr

/-- `struct PipelineOutput` (`pipeline.rs` lines 31-35); the source field
`variables` is spelled `vars` because `variables` is a Lean keyword. -/
structure PipelineOutput where
  results : List StepResult
  vars : List (String × Json)

/-- `HashMap::contains_key` on the variable store. -/
def containsKey (vars : List (String × Json)) (k : String) : Bool :=
  vars.any (fun p => p.1 == k)

/-- `HashMap::insert` on the variable store: the new binding replaces any
existing one. -/
def insertVar (vars : List (String × Json)) (k : String) (v : Json) :
    List (String × Json) :=
  (k, v) :: vars.filter (fun p => p.1 != k)

/-- `PipelineHandler::evaluate_condition` (`pipeline.rs` lines 117-129):
a bare identifier means "variable present", a leading `!` means
"variable absent". -/
def evaluate_condition (condition : String)
    (vars : List (String × Json)) : Bool :=
  match condition.data with
  | '!' :: rest => !(containsKey vars (String.mk rest))
  | _ => containsKey vars condition

/-- The per-step condition check of `PipelineHandler::execute`
(`pipeline.rs` lines 59-64): absent conditions pass. -/
def condPasses (step : PipelineStep) (vars : List (String × Json)) : Bool :=
  match step.condition with
  | some c => evaluate_condition c vars
  | none => true

/-- The step input of `PipelineHandler::execute` (`pipeline.rs`
lines 66-71): the interpolated template, or `json!({})` when absent. -/
def stepInputValue (step : PipelineStep)
    (vars : List (String × Json)) : Json :=
  match step.input with
  | some tmpl => interpolate_variables vars tmpl
  | none => .obj .nil

/-- The loop of `PipelineHandler::execute` (`pipeline.rs` lines 50-115).
`dispatch` is the registry dispatch, `toBytes` / `ofBytes` the serde
codec (`serde_json::to_vec` / `from_slice`).  On a failing step with
`FailFast` policy the source pushes the failure record and then returns
the bare error (`results.push(result); return Err(e)`), so the
accumulated records are discarded; with `Continue` the failure record is
kept and the loop proceeds. -/
def runSteps (dispatch : String → Bytes → Except Error Bytes)
    (toBytes : Json → Except Error Bytes)
    (ofBytes : Bytes → Except Error Json) :
    List PipelineStep → List (String × Json) → List StepResult →
    Except Error PipelineOutput
  | [], vars, results => .ok ⟨results, vars⟩
  | step :: rest, vars, results =>
    if condPasses step vars then
      match toBytes (stepInputValue step vars) with
      | .error e => .error e
      | .ok payload =>
        match dispatch step.tool payload with
        | .ok outBytes =>
          match ofBytes outBytes with
          | .error e => .error e
          | .ok outVal =>
            runSteps dispatch toBytes ofBytes rest
              (match step.output_var with
               | some nm => insertVar vars nm outVal
               | none => vars)
              (results ++ [⟨step.tool, true, some outVal, none⟩])
        | .error e =>
          match step.error_policy with
          | .failFast => .error e
          | .cont =>
            runSteps dispatch toBytes ofBytes rest vars
              (results ++ [⟨step.tool, false, none, some e.toMessage⟩])
    else runSteps dispatch toBytes ofBytes rest vars results

/-- `PipelineHandler::execute` (`pipeline.rs` lines 50-115), entered with
the input variables and an empty result list. -/
def PipelineHandler.execute (steps : List PipelineStep)
    (dispatch : String → Bytes → Except Error Bytes)
    (toBytes : Json → Except Error Bytes)
    (ofBytes : Bytes → Except Error Json)
    (inputVars : List (String × Json)) : Except Error PipelineOutput :=
  runSteps dispatch toBytes ofBytes steps inputVars []

/-- Specification-side predicate: each of the given steps, run in order
from `vars`, is either skipped by its condition or dispatches
successfully, ending with store `vars2`. -/
inductive PrefixRuns (dispatch : String → Bytes → Except Error Bytes)
    (toBytes : Json → Except Error Bytes)
    (ofBytes : Bytes → Except Error Json) :
    List PipelineStep → List (String × Json) → List (String × Json) → Prop
  | nil (vars : List (String × Json)) :
      PrefixRuns dispatch toBytes ofBytes [] vars vars
  | skip (step : PipelineStep) (rest : List PipelineStep)
      (vars vars2 : List (String × Json)) :
      condPasses step vars = false →
      PrefixRuns dispatch toBytes ofBytes rest vars vars2 →
      PrefixRuns dispatch toBytes ofBytes (step :: rest) vars vars2
  | ok (step : PipelineStep) (rest : List PipelineStep)
      (vars vars2 : List (String × Json)) (payload outBytes : Bytes)
      (outVal : Json) :
      condPasses step vars = true →
      toBytes (stepInputValue step vars) = .ok payload →
      dispatch step.tool payload = .ok outBytes →
      ofBytes outBytes = .ok outVal →
      PrefixRuns dispatch toBytes ofBytes rest
        (match step.output_var with
         | some nm => insertVar vars nm outVal
         | none => vars) vars2 →
      PrefixRuns dispatch toBytes ofBytes (step :: rest) vars vars2

/-- A dispatch that always fails, for the C6 counterexample. -/
def failDispatch (_tool : String) (_payload : Bytes) :
    Except Error Bytes := .error (.handler "boom")

/-- A trivial byte encoder for the pipeline examples. -/
def okToBytes (_j : Json) : Except Error Bytes := .ok []

/-- A trivial byte decoder for the pipeline examples. -/
def okOfBytes (_b : Bytes) : Except Error Json := .ok .null

/-- A single fail-fast step, for the C6 counterexample. -/
def cexStep : PipelineStep := ⟨"t1", none, none, none, .failFast⟩

/-- Counterexample to C6 as stated: when the first failing step has
`fail_fast` policy, `PipelineHandler::execute` returns the bare error —
the source pushes the failure record but then discards the whole
accumulator (`return Err(e)` on line 104 of `pipeline.rs`) — so the
caller never receives the accumulated per-step results (no
`PipelineOutput` is produced at all, as the `isOk = false` conjunct
records), contradicting the claim that the halted pipeline still returns
all accumulated results with the failing step's record last. -/
theorem C6_pipeline_fail_fast_cex :
    PipelineHandler.execute [cexStep] failDispatch okToBytes okOfBytes []
      = .error (.handler "boom")
    ∧ (PipelineHandler.execute [cexStep] failDispatch okToBytes
        okOfBytes []).isOk = false := ⟨rfl, rfl⟩

/-- Claim C6 (amended): for every pipeline whose first failing step has
`fail_fast` policy — every earlier step being skipped or succeeding —
the invocation fails with exactly that step's underlying dispatch error;
the failing step's record is pushed onto the internal accumulator just
before returning, but the accumulator is discarded and the caller
receives only the error. -/
theorem C6_pipeline_fail_fast
    (dispatch : String → Bytes → Except Error Bytes)
    (toBytes : Json → Except Error Bytes)
    (ofBytes : Bytes → Except Error Json)
    (pre rest : List PipelineStep) (fstep : PipelineStep)
    (vars vars2 : List (String × Json)) (results : List StepResult)
    (payload : Bytes) (e : Error)
    (hpre : PrefixRuns dispatch toBytes ofBytes pre vars vars2)
    (hcond : condPasses fstep vars2 = true)
    (htb : toBytes (stepInputValue fstep vars2) = .ok payload)
    (hfail : dispatch fstep.tool payload = .error e)
    (hpol : fstep.error_policy = .failFast) :
    runSteps dispatch toBytes ofBytes (pre ++ fstep :: rest) vars results
      = .error e := by
  induction pre generalizing vars results with
  | nil =>
    cases hpre
    rw [List.nil_append, runSteps]
    simp only [hcond, if_true]
    rw [htb]
    dsimp only
    rw [hfail]
    dsimp only
    rw [hpol]
  | cons p pre2 ih =>
    cases hpre with
    | skip _ _ _ _ hc hrec =>
      rw [List.cons_append, runSteps]
      simp only [hc, Bool.false_eq_true, if_false]
      exact ih _ _ hrec
    | ok _ _ _ _ payload2 outBytes2 outVal2 hc htb2 hd2 hob2 hrec =>
      rw [List.cons_append, runSteps]
      simp only [hc, if_true]
      rw [htb2]
      dsimp only
      rw [hd2]
      dsimp only
      rw [hob2]
      dsimp only
      exact ih _ _ hrec

/-- A dispatch with one succeeding tool and one failing tool, for the C6
witness. -/
def mixedDispatch (tool : String) (_payload : Bytes) :
    Except Error Bytes :=
  if tool = "good" then .ok [1] else .error (.handler "boom")

/-- Witness for C6: a two-step pipeline whose first step succeeds
(storing its output) and whose second step fails under `fail_fast`
returns exactly the failing step's dispatch error. -/
theorem C6_pipeline_fail_fast_witness :
    PipelineHandler.execute
        [⟨"good", none, some "v", none, .cont⟩,
         ⟨"bad", none, none, none, .failFast⟩]
        mixedDispatch okToBytes okOfBytes []
      = .error (.handler "boom") := by
  have h := C6_pipeline_fail_fast mixedDispatch okToBytes okOfBytes
    [⟨"good", none, some "v", none, .cont⟩] []
    ⟨"bad", none, none, none, .failFast⟩
    [] (insertVar [] "v" .null) [] [] (.handler "boom")
    (PrefixRuns.ok _ _ _ _ [] [1] .null rfl rfl rfl rfl
      (PrefixRuns.nil _))
    rfl rfl rfl rfl
  exact h

/-! ## Manifest validator (`crates/pforge-config/src/validator.rs`) -/

/-- `enum ConfigError` (`pforge-config/src/error.rs`), the variants the
validator produces. -/
inductive ConfigError where
  | parseError : String → ConfigError
  | duplicateToolName : String → ConfigError
  | invalidHandlerPath : String → ConfigError
  | validationError : String → ConfigError
deriving DecidableEq, Repr

/-- `enum ToolDef` (`pforge-config/src/types.rs` lines 45-84), reduced to
the fields the validator consults: every variant's `name`, and the
native variant's `handler.path`.  The remaining fields (descriptions,
params, commands, endpoints, steps, …) are never read by
`validate_config`. -/
inductive ToolDef where
  | native (name description handlerPath : String)
  | cli (name description command : String)
  | http (name description endpoint : String)
  | pipeline (name description : String)
deriving DecidableEq, Repr

/-- `ToolDef::name` (`types.rs` lines 86-94). -/
def ToolDef.name : ToolDef → String
  | .native n _ _ => n
  | .cli n _ _ => n
  | .http n _ _ => n
  | .pipeline n _ => n

/-- `struct ForgeConfig`, reduced to the `tools` list — the only field
`validate_config` reads. -/
structure ForgeConfig where
  tools : List ToolDef

/-- The duplicate-name loop of `validate_config` (`validator.rs`
lines 6-12): a `HashSet` whose failed insert reports the duplicate,
modelled as the list of names seen so far. -/
def checkDuplicates (seen : List String) :
    List ToolDef → Except ConfigError Unit
  | [] => .ok ()
  | t :: rest =>
    if t.name ∈ seen then .error (.duplicateToolName t.name)
    else checkDuplicates (t.name :: seen) rest

/-- `validate_handler_path` (`validator.rs` lines 24-38). -/
def validate_handler_path (path : String) : Except ConfigError Unit :=
  if path = "" then .error (.invalidHandlerPath "empty path")
  else if !(strContains path "::") then
    .error (.invalidHandlerPath
      ("invalid format: " ++ path ++ " (expected format: module::function)"))
  else .ok ()

/-- The handler-path loop of `validate_config` (`validator.rs`
lines 15-19): only native tools are checked. -/
def checkPaths : List ToolDef → Except ConfigError Unit
  | [] => .ok ()
  | .native _ _ p :: rest =>
    match validate_handler_path p with
    | .ok _ => checkPaths rest
    | .error e => .error e
  | .cli _ _ _ :: rest => checkPaths rest
  | .http _ _ _ :: rest => checkPaths rest
  | .pipeline _ _ :: rest => checkPaths rest

/-- `validate_config` (`validator.rs` lines 4-22): duplicate check, then
handler-path check. -/
def validate_config (cfg : ForgeConfig) : Except ConfigError Unit :=
  match checkDuplicates [] cfg.tools with
  | .error e => .error e
  | .ok _ => checkPaths cfg.tools

lemma checkDuplicates_ok_iff :
    ∀ (ts : List ToolDef) (seen : List String),
    checkDuplicates seen ts = .ok ()
      ↔ (ts.map ToolDef.name).Nodup
        ∧ ∀ n ∈ ts.map ToolDef.name, n ∉ seen := by
  intro ts
  induction ts with
  | nil => intro seen; simp [checkDuplicates]
  | cons t rest ih =>
    intro seen
    by_cases hmem : t.name ∈ seen
    · rw [checkDuplicates, if_pos hmem]
      constructor
      · intro h; exact Except.noConfusion h
      · rintro ⟨_, hall⟩
        exact absurd hmem (hall t.name (by simp))
    · rw [checkDuplicates, if_neg hmem, ih (t.name :: seen)]
      simp only [List.map_cons, List.nodup_cons, List.mem_cons]
      constructor
      · rintro ⟨hnd, hall⟩
        refine ⟨⟨?_, hnd⟩, ?_⟩
        · intro hmem2
          exact (hall t.name hmem2) (Or.inl rfl)
        · rintro n (rfl | hn)
          · exact hmem
          · exact fun hns => (hall n hn) (Or.inr hns)
      · rintro ⟨⟨hnin, hnd⟩, hall⟩
        refine ⟨hnd, ?_⟩
        intro n hn hns
        rcases hns with h1 | h2
        · exact hnin (h1 ▸ hn)
        · exact hall n (Or.inr hn) h2

lemma checkPaths_ok_iff :
    ∀ ts : List ToolDef,
    checkPaths ts = .ok ()
      ↔ ∀ t ∈ ts, ∀ nm d p, t = ToolDef.native nm d p →
          validate_handler_path p = .ok () := by
  intro ts
  induction ts with
  | nil => simp [checkPaths]
  | cons t rest ih =>
    cases t with
    | native nm d p =>
      rw [checkPaths]
      cases hv : validate_handler_path p with
      | ok u =>
        dsimp only
        rw [ih]
        constructor
        · intro hall
          rintro t2 ht2 nm2 d2 p2 rfl
          rcases List.mem_cons.mp ht2 with h1 | h2
          · cases h1
            exact hv
          · exact hall _ h2 nm2 d2 p2 rfl
        · intro hall t2 ht2 nm2 d2 p2 ht2eq
          exact hall t2 (List.mem_cons_of_mem _ ht2) nm2 d2 p2 ht2eq
      | error e =>
        dsimp only
        constructor
        · intro h; exact Except.noConfusion h
        · intro hall
          have := hall _ (List.mem_cons_self _ _) nm d p rfl
          rw [this] at hv
          exact Except.noConfusion hv
    | cli nm d c =>
      rw [checkPaths, ih]
      constructor
      · rintro hall t2 ht2 nm2 d2 p2 rfl
        rcases List.mem_cons.mp ht2 with h1 | h2
        · exact ToolDef.noConfusion h1
        · exact hall _ h2 nm2 d2 p2 rfl
      · intro hall t2 ht2 nm2 d2 p2 ht2eq
        exact hall t2 (List.mem_cons_of_mem _ ht2) nm2 d2 p2 ht2eq
    | http nm d ep =>
      rw [checkPaths, ih]
      constructor
      · rintro hall t2 ht2 nm2 d2 p2 rfl
        rcases List.mem_cons.mp ht2 with h1 | h2
        · exact ToolDef.noConfusion h1
        · exact hall _ h2 nm2 d2 p2 rfl
      · intro hall t2 ht2 nm2 d2 p2 ht2eq
        exact hall t2 (List.mem_cons_of_mem _ ht2) nm2 d2 p2 ht2eq
    | pipeline nm d =>
      rw [checkPaths, ih]
      constructor
      · rintro hall t2 ht2 nm2 d2 p2 rfl
        rcases List.mem_cons.mp ht2 with h1 | h2
        · exact ToolDef.noConfusion h1
        · exact hall _ h2 nm2 d2 p2 rfl
      · intro hall t2 ht2 nm2 d2 p2 ht2eq
        exact hall t2 (List.mem_cons_of_mem _ ht2) nm2 d2 p2 ht2eq

lemma validate_handler_path_ok_iff (p : String) :
    validate_handler_path p = .ok ()
      ↔ p ≠ "" ∧ strContains p "::" = true := by
  rw [validate_handler_path]
  by_cases h0 : p = ""
  · simp [h0]
  · rw [if_neg h0]
    by_cases h1 : strContains p "::" = true
    · simp [h0, h1]
    · simp only [Bool.not_eq_true] at h1
      simp [h0, h1]

/-- A configuration with a single native tool whose handler path lacks
`::`, for the C8 counterexample. -/
def badPathConfig : ForgeConfig := ⟨[.native "solo" "d" "nopath"]⟩

/-- Counterexample to C8 as stated: `validate_config` can fail although
no two tools share a name — a sole native tool whose handler path has no
`::` separator is rejected with `InvalidHandlerPath`, so "fails iff two
tools share a name" is false in the only-if direction. -/
theorem C8_validate_config_cex :
    validate_config badPathConfig
      = .error (.invalidHandlerPath
          "invalid format: nopath (expected format: module::function)")
    ∧ (badPathConfig.tools.map ToolDef.name).Nodup := by
  exact ⟨rfl, by decide⟩

/-- Claim C8 (amended): `validate_config m` succeeds iff the tool names
are pairwise distinct AND every native tool's handler path is non-empty
and contains the `::` separator; equivalently, it fails iff two tools
share a name or some native handler path is empty or lacks `::`. -/
theorem C8_validate_config (cfg : ForgeConfig) :
    validate_config cfg = .ok ()
      ↔ (cfg.tools.map ToolDef.name).Nodup
        ∧ ∀ t ∈ cfg.tools, ∀ nm d p, t = ToolDef.native nm d p →
            p ≠ "" ∧ strContains p "::" = true := by
  rw [validate_config]
  cases hdup : checkDuplicates [] cfg.tools with
  | error e =>
    dsimp only
    constructor
    · intro h; exact Except.noConfusion h
    · rintro ⟨hnd, _⟩
      have : checkDuplicates [] cfg.tools = .ok () := by
        rw [checkDuplicates_ok_iff]
        exact ⟨hnd, fun n _ => List.not_mem_nil n⟩
      rw [this] at hdup
      exact Except.noConfusion hdup
  | ok u =>
    dsimp only
    have hnd : (cfg.tools.map ToolDef.name).Nodup :=
      ((checkDuplicates_ok_iff cfg.tools []).mp (by cases u; exact hdup)).1
    rw [checkPaths_ok_iff]
    constructor
    · intro hall
      refine ⟨hnd, ?_⟩
      intro t ht nm d p htp
      exact (validate_handler_path_ok_iff p).mp (hall t ht nm d p htp)
    · rintro ⟨_, hall⟩
      intro t ht nm d p htp
      exact (validate_handler_path_ok_iff p).mpr (hall t ht nm d p htp)

/-! ## State store (`crates/pforge-runtime/src/state.rs`) -/

/-- The contents of a state store: keys to opaque byte payloads.  Models
both the `DashMap` of `MemoryStateManager` and the `sled::Db` of
`SledStateManager`. -/
abbrev StoreState := List (String × Bytes)

/-- `MemoryStateManager::set` (`state.rs` lines 98-102): a plain map
insert; the `_ttl` argument is named with an underscore in the source
and never read. -/
def memSet (st : StoreState) (key : String) (value : Bytes)
    (_ttl : Option Nat) : StoreState :=
  (key, value) :: st.filter (fun p => p.1 != key)

/-- `MemoryStateManager::get` (`state.rs` lines 94-96): a plain lookup,
with no time or expiry logic. -/
def memGet (st : StoreState) (key : String) : Option Bytes :=
  List.lookup key st

/-- `MemoryStateManager::delete` (`state.rs` lines 104-107). -/
def memDelete (st : StoreState) (key : String) : StoreState :=
  st.filter (fun p => p.1 != key)

/-- `MemoryStateManager::exists` (`state.rs` lines 109-111). -/
def memExists (st : StoreState) (key : String) : Bool :=
  (List.lookup key st).isSome

/-- `SledStateManager::set` (`state.rs` lines 44-55): insert then flush
(durability only — the visible contents are the same map update); `_ttl`
is likewise ignored. -/
def sledSet (st : StoreState) (key : String) (value : Bytes)
    (_ttl : Option Nat) : StoreState :=
  (key, value) :: st.filter (fun p => p.1 != key)

/-- `SledStateManager::get` (`state.rs` lines 35-42): a plain tree
lookup, with no time or expiry logic. -/
def sledGet (st : StoreState) (key : String) : Option Bytes :=
  List.lookup key st

/-- `SledStateManager::delete` (`state.rs` lines 57-62). -/
def sledDelete (st : StoreState) (key : String) : StoreState :=
  st.filter (fun p => p.1 != key)

/-- `SledStateManager::exists` (`state.rs` lines 64-70). -/
def sledExists (st : StoreState) (key : String) : Bool :=
  (List.lookup key st).isSome

/-- A subsequent store operation, for stating that values survive until
an explicit delete. -/
inductive StoreOp where
  | setOp (key : String) (value : Bytes) (ttl : Option Nat)
  | deleteOp (key : String)

/-- The key an operation touches. -/
def StoreOp.key : StoreOp → String
  | .setOp k _ _ => k
  | .deleteOp k => k

/-- Run a sequence of operations against the in-memory store. -/
def applyMemOps (st : StoreState) : List StoreOp → StoreState
  | [] => st
  | .setOp k v ttl :: rest => applyMemOps (memSet st k v ttl) rest
  | .deleteOp k :: rest => applyMemOps (memDelete st k) rest

lemma lookup_filter_ne (k k2 : String) (h : k ≠ k2) :
    ∀ st : StoreState,
    List.lookup k (st.filter (fun p => p.1 != k2)) = List.lookup k st := by
  intro st
  induction st with
  | nil => rfl
  | cons p rest ih =>
    by_cases hp : p.1 = k2
    · have hk : (k == p.1) = false := by
        rw [beq_eq_false_iff_ne]
        rw [hp]
        exact h
      rw [show List.filter (fun p => p.1 != k2) (p :: rest)
          = List.filter (fun p => p.1 != k2) rest from by
        simp [List.filter, hp]]
      rw [ih, List.lookup, hk]
    · rw [show List.filter (fun p => p.1 != k2) (p :: rest)
          = p :: List.filter (fun p => p.1 != k2) rest from by
        have hb : (p.1 == k2) = false := beq_eq_false_iff_ne.mpr hp
        simp [List.filter, bne, hb]]
      rw [List.lookup, List.lookup]
      cases hk : (k == p.1) with
      | true => rfl
      | false => exact ih

lemma lookup_filter_self (k : String) :
    ∀ st : StoreState,
    List.lookup k (st.filter (fun p => p.1 != k)) = none := by
  intro st
  induction st with
  | nil => rfl
  | cons p rest ih =>
    by_cases hp : p.1 = k
    · rw [show List.filter (fun p => p.1 != k) (p :: rest)
          = List.filter (fun p => p.1 != k) rest from by
        simp [List.filter, hp]]
      exact ih
    · rw [show List.filter (fun p => p.1 != k) (p :: rest)
          = p :: List.filter (fun p => p.1 != k) rest from by
        have hb : (p.1 == k) = false := beq_eq_false_iff_ne.mpr hp
        simp [List.filter, bne, hb]]
      rw [List.lookup]
      have hk : (k == p.1) = false := by
        rw [beq_eq_false_iff_ne]
        exact fun he => hp he.symm
      rw [hk]
      exact ih

lemma applyMemOps_other (k : String) :
    ∀ (ops : List StoreOp) (st : StoreState),
    (∀ op ∈ ops, StoreOp.key op ≠ k) →
    memGet (applyMemOps st ops) k = memGet st k := by
  intro ops
  induction ops with
  | nil => intro st _; rfl
  | cons op rest ih =>
    intro st hops
    have hk : StoreOp.key op ≠ k := hops op (List.mem_cons_self _ _)
    have hrest : ∀ op2 ∈ rest, StoreOp.key op2 ≠ k :=
      fun op2 h2 => hops op2 (List.mem_cons_of_mem _ h2)
    cases op with
    | setOp k2 v2 t2 =>
      rw [applyMemOps, ih _ hrest, memGet, memGet, memSet]
      have hne : k ≠ k2 := fun he => hk (by simpa [StoreOp.key] using he.symm)
      rw [List.lookup, show (k == k2) = false from beq_eq_false_iff_ne.mpr hne,
        lookup_filter_ne k k2 hne]
    | deleteOp k2 =>
      rw [applyMemOps, ih _ hrest, memGet, memGet, memDelete]
      have hne : k ≠ k2 := fun he => hk (by simpa [StoreOp.key] using he.symm)
      rw [lookup_filter_ne k k2 hne]

/-- Claim C10: in both state-store variants the `ttl` argument of `set`
is ignored entirely — `set key value ttl` produces exactly the state of
`set key value none` — and a stored value stays retrievable by `get` and
reported by `exists`, across any later operations on other keys, until
an explicit `delete` of its key removes it; neither `get` nor `exists`
consults a clock, so no expiration ever occurs, not even lazily at read
time. -/
theorem C10_state_store_ttl (st : StoreState) (k : String) (v : Bytes)
    (ttl : Option Nat) (ops : List StoreOp)
    (hops : ∀ op ∈ ops, StoreOp.key op ≠ k) :
    memSet st k v ttl = memSet st k v none
    ∧ sledSet st k v ttl = sledSet st k v none
    ∧ memGet (memSet st k v ttl) k = some v
    ∧ memExists (memSet st k v ttl) k = true
    ∧ sledGet (sledSet st k v ttl) k = some v
    ∧ sledExists (sledSet st k v ttl) k = true
    ∧ memGet (applyMemOps (memSet st k v ttl) ops) k = some v
    ∧ memGet (memDelete (memSet st k v ttl) k) k = none
    ∧ sledGet (sledDelete (sledSet st k v ttl) k) k = none := by
  have hget : memGet (memSet st k v ttl) k = some v := by
    rw [memGet, memSet, List.lookup, beq_self_eq_true]
  refine ⟨rfl, rfl, hget, ?_, hget, ?_, ?_, ?_, ?_⟩
  · rw [memExists, memSet, List.lookup, beq_self_eq_true]
    rfl
  · rw [sledExists, sledSet, List.lookup, beq_self_eq_true]
    rfl
  · rw [applyMemOps_other k ops _ hops, hget]
  · rw [memGet, memDelete, memSet]
    rw [show List.filter (fun p => p.1 != k)
        ((k, v) :: List.filter (fun p => p.1 != k) st)
        = List.filter (fun p => p.1 != k) (List.filter (fun p => p.1 != k) st)
      from by simp [List.filter]]
    rw [List.filter_filter]
    rw [show (fun p : String × Bytes => p.1 != k && p.1 != k)
        = (fun p : String × Bytes => p.1 != k) from by
      funext p; rw [Bool.and_self]]
    exact lookup_filter_self k st
  · rw [sledGet, sledDelete, sledSet]
    rw [show List.filter (fun p => p.1 != k)
        ((k, v) :: List.filter (fun p => p.1 != k) st)
        = List.filter (fun p => p.1 != k) (List.filter (fun p => p.1 != k) st)
      from by simp [List.filter]]
    rw [List.filter_filter]
    rw [show (fun p : String × Bytes => p.1 != k && p.1 != k)
        = (fun p : String × Bytes => p.1 != k) from by
      funext p; rw [Bool.and_self]]
    exact lookup_filter_self k st

/-- Witness for C10: `set "key1" [1, 2]` with a 60-tick TTL equals the
TTL-free set, remains retrievable after setting another key, and
disappears only on explicit delete. -/
theorem C10_state_store_ttl_witness :
    memSet [] "key1" [1, 2] (some 60) = memSet [] "key1" [1, 2] none
    ∧ memGet (applyMemOps (memSet [] "key1" [1, 2] (some 60))
        [.setOp "other" [] none]) "key1" = some [1, 2]
    ∧ memGet (memDelete (memSet [] "key1" [1, 2] (some 60)) "key1") "key1"
        = none := by
  have h := C10_state_store_ttl [] "key1" [1, 2] (some 60)
    [.setOp "other" [] none]
    (by intro op hop; fin_cases hop; decide)
  exact ⟨h.1, h.2.2.2.2.2.2.1, h.2.2.2.2.2.2.2.1⟩

end PForge
